import Mathlib

/-!
Verification of the OpenMetadata profiler core (Pinot histogram adapter).

A shallow embedding, over exact rationals, of:

* `PinotDBHistogram.fn` and its query construction
  (`ingestion/src/metadata/profiler/metrics/hybrid/pinot/histogram.py`);
* the hybrid-metric dispatch of `PinotDBProfilerInterface.get_hybrid_metrics`
  (`ingestion/src/metadata/profiler/interface/sqlalchemy/pinotdb/profiler_interface.py`);
* the generic histogram helpers (`_get_bins`, `_get_res`, `_format_bin_labels`),
  the type registry predicates, the base-class dispatcher and the sampler cell
  truncation, which are used by that code but whose defining modules are not part
  of the source tree here: those are modelled from the specification, each marked
  `Modelled from the spec:` in its doc comment.

Python floats are modelled as `ℚ`; Python `round` (round-half-to-even) is `pyRound`.
The SQLAlchemy session is an oracle consuming the synthesized aggregate query and
returning at most one row of values, one per selected expression.
-/

attribute [local semireducible] Rat.add Rat.mul Rat.sub Rat.inv

/-! ## Cell truncation (sampler) -/

/-- A scalar sample-cell value: string, number, boolean, null or byte sequence. -/
inductive CellValue
  | str (s : String)
  | intV (n : ℤ)
  | floatV (q : ℚ)
  | boolV (b : Bool)
  | nullV
  | bytes (bs : List ℕ)
deriving DecidableEq

/-- Whether a cell value is a string. -/
def CellValue.isString : CellValue → Bool
  | .str _ => true
  | _ => false

/-- Modelled from the spec: `SamplerInterface._truncate_cell` (its defining module is
not among the sources; behavior fixed by spec §4.4 and the sampler unit tests):
a string longer than `maxCellLength` is cut to its first `maxCellLength` characters,
with no suffix marker; any other value passes through unchanged. -/
def SamplerInterface.truncateCell (maxCellLength : ℕ) : CellValue → CellValue
  | .str s => if maxCellLength < s.length then .str (s.take maxCellLength) else .str s
  | v => v

/-! ## Hybrid-metric dispatch and the override registry -/

/-- A hybrid metric type: a stable `name()` together with its `fn` behavior
(`α` the argument tuple, `β` the result). -/
structure HybridMetricTy (α β : Type) where
  mname : String
  fnImpl : α → β

/-- A backend profiler-adapter instance: it owns an override registry mapping
metric names to alternate metric types. -/
structure ProfilerIface (α β : Type) where
  HYBRID_METRIC_OVERRIDES : List (String × HybridMetricTy α β)

/-- Resolution: `effective = overrides.get(metricType.name(), metricType)`. -/
def resolveEffective {α β : Type} (overrides : List (String × HybridMetricTy α β))
    (metric : HybridMetricTy α β) : HybridMetricTy α β :=
  (overrides.lookup metric.mname).getD metric

/-- Modelled from the spec: `SQAProfilerInterface.get_hybrid_metrics` (base class, not
among the sources; its dispatch contract is fixed by spec §4.1 and by
`TestHybridMetricOverrideDispatch`): resolve the effective metric from the calling
instance's `HYBRID_METRIC_OVERRIDES`, then invoke that metric's `fn`. -/
def SQAProfilerInterface.getHybridMetrics {α β : Type} (iface : ProfilerIface α β)
    (metric : HybridMetricTy α β) (args : α) : β :=
  (resolveEffective iface.HYBRID_METRIC_OVERRIDES metric).fnImpl args

/-- Modelled from the spec: the base-class registry default is empty. -/
def SQAProfilerInterface.HYBRID_METRIC_OVERRIDES {α β : Type} :
    List (String × HybridMetricTy α β) := []

/-- The string `MetricType.histogram.value`. -/
def MetricTypeHistogram : String := "histogram"

/-- The class-level registry of `PinotDBProfilerInterface`: the histogram metric is
overridden by the Pinot-specific histogram (abstracted here as a metric value). -/
def PinotDBProfilerInterface.HYBRID_METRIC_OVERRIDES {α β : Type}
    (pinotHistogram : HybridMetricTy α β) : List (String × HybridMetricTy α β) :=
  [(MetricTypeHistogram, pinotHistogram)]

/-- Source `PinotDBProfilerInterface.get_hybrid_metrics`: resolve the effective metric from
the instance registry and delegate to the base-class dispatcher. -/
def PinotDBProfilerInterface.getHybridMetrics {α β : Type} (iface : ProfilerIface α β)
    (metric : HybridMetricTy α β) (args : α) : β :=
  SQAProfilerInterface.getHybridMetrics iface
    (resolveEffective iface.HYBRID_METRIC_OVERRIDES metric) args

/-! ## Column descriptors, type registry predicates, prior results -/

/-- The column descriptor the metric is constructed with: a name and the semantic
type facets the registry predicates inspect. -/
structure ColumnDescriptor where
  name : String
  isNumeric : Bool
  isTextual : Bool
deriving DecidableEq

/-- Modelled from the spec: `is_quantifiable` (`metadata.profiler.orm.registry`, not
among the sources): a column is quantifiable when numeric or textual — textual
columns are profiled via their length (spec §4.2). -/
def is_quantifiable (c : ColumnDescriptor) : Bool := c.isNumeric || c.isTextual

/-- Modelled from the spec: `is_concatenable` (`metadata.profiler.orm.registry`, not
among the sources): the textual column types. -/
def is_concatenable (c : ColumnDescriptor) : Bool := c.isTextual

/-- A value stored in the prior-results map: a numeric value, or one of the
non-numeric sentinels (NaN/Inf). -/
inductive ResVal
  | num (q : ℚ)
  | sentinel
deriving DecidableEq

/-- The prior-results map `res : Dict[str, Any]`, keyed by metric name. -/
def ResMap : Type := List (String × ResVal)

/-- Modelled from the spec: `is_value_non_numeric` (`metadata.profiler.orm.registry`,
not among the sources): detects the non-numeric sentinels; a missing or numeric
value is not a sentinel. -/
def is_value_non_numeric : Option ResVal → Bool
  | some .sentinel => true
  | _ => false

/-- The metric names used as keys of the results map (spec §6). -/
def MetricName.min : String := "min"

/-- Key of the maximum metric. -/
def MetricName.max : String := "max"

/-- Key of the row-count metric. -/
def MetricName.count : String := "count"

/-- Key of the interquartile-range metric. -/
def MetricName.interQuartileRange : String := "interQuartileRange"

/-- Modelled from the spec: `Histogram._get_res` (generic class, not among the
sources): read the prior results `(iqr, row_count, min, max)` from the map; if any
is missing the histogram is skipped. Values are taken as numerics — the sentinel
case for `min`/`max` is excluded by the guard preceding this call in `fn`. -/
def Histogram.getRes (res : ResMap) : Option (ℚ × ℚ × ℚ × ℚ) :=
  match res.lookup MetricName.interQuartileRange, res.lookup MetricName.count,
      res.lookup MetricName.min, res.lookup MetricName.max with
  | some (.num i), some (.num c), some (.num mn), some (.num mx) => some (i, c, mn, mx)
  | _, _, _, _ => none

/-! ## Bin plan -/

/-- Modelled from the spec: the generic `Histogram._get_bins(iqr, row_count, min,
max) -> (num_bins, bin_width)` (not among the sources). The spec fixes its
signature and that it is a Freedman–Diaconis-style rule, but leaves the exact
constant/rounding behind a replaceable strategy (spec §9), so the development is
parametric in the strategy. -/
structure BinStrategy where
  getBins : ℚ → ℚ → ℚ → ℚ → ℕ × ℚ

/-- The generic histogram's bin plan: exactly the strategy's rule. -/
def Histogram.binPlan (st : BinStrategy) (resIqr resRowCount resMin resMax : ℚ) : ℕ × ℚ :=
  st.getBins resIqr resRowCount resMin resMax

/-- Inheritance: `PinotDBHistogram` declares no `_get_bins` of its own; `fn` calls the inherited
`self._get_bins`, i.e. the generic computation, unchanged. -/
def PinotDBHistogram.binPlan (st : BinStrategy) (resIqr resRowCount resMin resMax : ℚ) : ℕ × ℚ :=
  Histogram.binPlan st resIqr resRowCount resMin resMax

/-! ## Python `round` and the `"{:.3f}"` label format -/

/-- Python's builtin `round` on an exact value: round-half-to-even. -/
def pyRound (q : ℚ) : ℤ :=
  if q - (⌊q⌋ : ℚ) < 1/2 then ⌊q⌋
  else if 1/2 < q - (⌊q⌋ : ℚ) then ⌊q⌋ + 1
  else if ⌊q⌋ % 2 = 0 then ⌊q⌋ else ⌊q⌋ + 1

/-- Modelled from the spec: the label rendering `"{x:.3f}"` used by
`Histogram._format_bin_labels` (not among the sources): the value printed with
exactly three digits after the decimal point. -/
def fmt3 (q : ℚ) : String :=
  let n : ℤ := pyRound (q * 1000)
  let sign : String := if n < 0 then "-" else ""
  let m : ℕ := n.natAbs
  let ip : ℕ := m / 1000
  let fp : ℕ := m % 1000
  let pad : String := if fp < 10 then "00" else if fp < 100 then "0" else ""
  sign ++ toString ip ++ "." ++ pad ++ toString fp

/-- Modelled from the spec: `Histogram._format_bin_labels` (not among the sources):
a bounded bin renders as `"{start:.3f} to {end:.3f}"`, the unbounded final bin as
`"{start:.3f} and up"`. -/
def Histogram.formatBinLabels (lowerBin : ℚ) (upperBin : Option ℚ) : String :=
  match upperBin with
  | some ub => fmt3 lowerBin ++ " to " ++ fmt3 ub
  | none => fmt3 lowerBin ++ " and up"

/-! ## The synthesized aggregate query -/

/-- The column expression selected from: the raw column, or `LenFn(column)` for
textual columns. -/
inductive ColExpr
  | named (colName : String)
  | lengthOf (colName : String)
deriving DecidableEq

/-- The scaled column `scaled_col = col * SCALE_FACTOR`. -/
structure ScaledCol where
  base : ColExpr
  factor : ℤ
deriving DecidableEq

/-- A `CASE WHEN` condition over the scaled column. -/
inductive BinCond
  | geC (sc : ScaledCol) (bound : ℤ)
  | ltC (sc : ScaledCol) (bound : ℤ)
  | andC (a b : BinCond)
deriving DecidableEq

/-- A labeled conditional aggregate expression:
`SUM(CASE WHEN cond THEN t ELSE e END) AS label`, or the defective
`COUNT(CASE WHEN cond THEN ... END) AS label` form that the adapter must avoid. -/
inductive AggExpr
  | sumCase (cond : BinCond) (thenVal elseVal : ℤ) (lbl : String)
  | countCase (cond : BinCond) (lbl : String)
deriving DecidableEq

/-- The label of an aggregate expression. -/
def AggExpr.labelOf : AggExpr → String
  | .sumCase _ _ _ l => l
  | .countCase _ l => l

/-- The condition of an aggregate expression. -/
def AggExpr.condOf : AggExpr → BinCond
  | .sumCase c _ _ _ => c
  | .countCase c _ => c

/-- Whether the expression is the `SUM(CASE WHEN ... THEN 1 ELSE 0 END)` form. -/
def AggExpr.isSumCase : AggExpr → Bool
  | .sumCase _ _ _ _ => true
  | .countCase _ _ => false

/-- The scaled integer lower bound a bin condition compares against. -/
def AggExpr.lowerScaled : AggExpr → Option ℤ
  | .sumCase (.andC (.geC _ a) (.ltC _ _)) _ _ _ => some a
  | .sumCase (.geC _ a) _ _ _ => some a
  | _ => none

/-- The scaled integer upper bound a bin condition compares against (none for the
open-ended final bin). -/
def AggExpr.upperScaled : AggExpr → Option ℤ
  | .sumCase (.andC (.geC _ _) (.ltC _ b)) _ _ _ => some b
  | _ => none

/-- Truth of a condition at a raw column value `v` (the scaled column evaluates to
`v * factor`). -/
def BinCond.eval (v : ℚ) : BinCond → Bool
  | .geC sc k => decide ((k : ℚ) ≤ v * (sc.factor : ℚ))
  | .ltC sc k => decide (v * (sc.factor : ℚ) < (k : ℚ))
  | .andC a b => a.eval v && b.eval v

/-! ## The Pinot histogram metric -/

/-- The constant `PinotDBHistogram.SCALE_FACTOR`. -/
def PinotDBHistogram.SCALE_FACTOR : ℤ := 1000

/-- The non-final bin's aggregate:
`func.sum(case([(and_(scaled_col >= round(start*SF), scaled_col < round(end*SF)),
literal(1))], else_=literal(0))).label(format_bin_labels(start, end))`. -/
def PinotDBHistogram.boundedStmt (sc : ScaledCol) (curStart curEnd : ℚ) : AggExpr :=
  .sumCase
    (.andC (.geC sc (pyRound (curStart * (sc.factor : ℚ))))
      (.ltC sc (pyRound (curEnd * (sc.factor : ℚ)))))
    1 0 (Histogram.formatBinLabels curStart (some curEnd))

/-- The final bin's open-ended aggregate:
`func.sum(case([(scaled_col >= round(start*SF), literal(1))],
else_=literal(0))).label(format_bin_labels(start))`. -/
def PinotDBHistogram.openStmt (sc : ScaledCol) (curStart : ℚ) : AggExpr :=
  .sumCase (.geC sc (pyRound (curStart * (sc.factor : ℚ)))) 1 0
    (Histogram.formatBinLabels curStart none)

/-- The `for bin_num in range(num_bins)` loop of `PinotDBHistogram.fn`: every bin
but the last is bounded by `[current_start, current_end)`, then the window slides
by `bin_width`; the last bin is open-ended at `current_start`. -/
def PinotDBHistogram.caseStmtsAux (sc : ScaledCol) (binWidth : ℚ) :
    ℕ → ℚ → ℚ → List AggExpr
  | 0, _, _ => []
  | 1, curStart, _ => [PinotDBHistogram.openStmt sc curStart]
  | n + 2, curStart, curEnd =>
      PinotDBHistogram.boundedStmt sc curStart curEnd ::
        PinotDBHistogram.caseStmtsAux sc binWidth (n + 1) curEnd (curEnd + binWidth)

/-- The histogram result `{boundaries, frequencies}`. -/
structure HistogramResult where
  boundaries : List String
  frequencies : List ℤ
deriving DecidableEq

/-- The session oracle: `session.query(*case_stmts).select_from(sample).first()`
returns at most one row, as the list of values of the selected expressions. -/
def DBSession : Type := List AggExpr → Option (List ℤ)

/-- A session is well formed when a returned row has exactly one value per
selected expression (SQL row semantics). -/
def DBSession.wellFormed (s : DBSession) : Prop :=
  ∀ q r, s q = some r → r.length = q.length

/-- The `AttributeError` message raised when the session is missing. -/
def PinotDBHistogram.missingSessionMsg : String :=
  "We are missing the session attribute to compute the Histogram."

/-- The scaled column `fn` aggregates over: `LenFn(column(name))` for concatenable
columns, the raw `column(name)` otherwise, times `SCALE_FACTOR`. -/
def PinotDBHistogram.scaledColFor (col : ColumnDescriptor) : ScaledCol :=
  ⟨if is_concatenable col then .lengthOf col.name else .named col.name,
    PinotDBHistogram.SCALE_FACTOR⟩

/-- The case statements `fn` builds before querying: the loop over
`range(num_bins)`, with the window starting at
`[starting_bin_bound, ending_bin_bound) = [res_min, res_min + bin_width)`. -/
def PinotDBHistogram.stmtsFor (st : BinStrategy) (col : ColumnDescriptor)
    (resIqr resRowCount resMin resMax : ℚ) : List AggExpr :=
  PinotDBHistogram.caseStmtsAux (PinotDBHistogram.scaledColFor col)
    (PinotDBHistogram.binPlan st resIqr resRowCount resMin resMax).2
    (PinotDBHistogram.binPlan st resIqr resRowCount resMin resMax).1
    resMin
    (resMin + (PinotDBHistogram.binPlan st resIqr resRowCount resMin resMax).2)

/-- Source `PinotDBHistogram.fn`, instrumented: the first component is the returned value
(`Except` for the raised `AttributeError`), the second the list of aggregate
queries handed to the session, in order. -/
def PinotDBHistogram.fnTraced (st : BinStrategy) (col : ColumnDescriptor)
    (res : ResMap) (session : Option DBSession) :
    Except String (Option HistogramResult) × List (List AggExpr) :=
  match session with
  | none => (.error PinotDBHistogram.missingSessionMsg, [])
  | some s =>
    if !(is_quantifiable col) || is_value_non_numeric (res.lookup MetricName.min)
        || is_value_non_numeric (res.lookup MetricName.max) then
      (.ok none, [])
    else
      match Histogram.getRes res with
      | none => (.ok none, [])
      | some (resIqr, resRowCount, resMin, resMax) =>
        if (PinotDBHistogram.binPlan st resIqr resRowCount resMin resMax).1 = 0 then
          (.ok none, [])
        else
          match s (PinotDBHistogram.stmtsFor st col resIqr resRowCount resMin resMax) with
          | none =>
              (.ok none, [PinotDBHistogram.stmtsFor st col resIqr resRowCount resMin resMax])
          | some row =>
              (.ok (some ⟨(PinotDBHistogram.stmtsFor st col resIqr resRowCount
                  resMin resMax).map AggExpr.labelOf, row⟩),
                [PinotDBHistogram.stmtsFor st col resIqr resRowCount resMin resMax])

/-- Source `PinotDBHistogram.fn`: the value returned to the caller. -/
def PinotDBHistogram.fn (st : BinStrategy) (col : ColumnDescriptor)
    (res : ResMap) (session : Option DBSession) :
    Except String (Option HistogramResult) :=
  (PinotDBHistogram.fnTraced st col res session).1

/-! ## Structural lemmas about the synthesized query -/

/-- The lower boundary of bin `i`: `min + i * bin_width`. -/
def binStart (mn w : ℚ) (i : ℕ) : ℚ := mn + (i : ℚ) * w

/-- Closed form of the bin `i` aggregate expression in a plan of `n` bins. -/
def stmtAt (sc : ScaledCol) (w mn : ℚ) (n i : ℕ) : AggExpr :=
  if i + 1 < n then
    PinotDBHistogram.boundedStmt sc (binStart mn w i) (binStart mn w (i + 1))
  else
    PinotDBHistogram.openStmt sc (binStart mn w i)

lemma caseStmtsAux_closed (sc : ScaledCol) (w : ℚ) :
    ∀ (n : ℕ) (b : ℚ),
      PinotDBHistogram.caseStmtsAux sc w n b (b + w) =
        (List.range n).map (stmtAt sc w b n) := by
  intro n
  induction n with
  | zero => intro b; rfl
  | succ m ih =>
    intro b
    match m, ih with
    | 0, _ =>
      show [PinotDBHistogram.openStmt sc b] = (List.range 1).map (stmtAt sc w b 1)
      have h0 : stmtAt sc w b 1 0 = PinotDBHistogram.openStmt sc b := by
        norm_num [stmtAt, binStart]
      have h1 : (List.range 1).map (stmtAt sc w b 1) = [stmtAt sc w b 1 0] := rfl
      rw [h1, h0]
    | Nat.succ k, ih =>
      have hrec : PinotDBHistogram.caseStmtsAux sc w (k + 2) b (b + w) =
          PinotDBHistogram.boundedStmt sc b (b + w) ::
            PinotDBHistogram.caseStmtsAux sc w (k + 1) (b + w) ((b + w) + w) := rfl
      have hr : (List.range (k + 2)).map (stmtAt sc w b (k + 2)) =
          stmtAt sc w b (k + 2) 0 ::
            (List.range (k + 1)).map (fun i => stmtAt sc w b (k + 2) (i + 1)) := by
        rw [show k + 2 = (k + 1) + 1 from rfl, List.range_succ_eq_map]
        simp [List.map_map, Function.comp_def]
      rw [hrec, ih (b + w), hr]
      congr 1
      · simp [stmtAt, binStart]
      · refine List.map_congr_left ?_
        intro i _
        have hc : (i + 1 < k + 1) = ((i + 1) + 1 < k + 2) := by
          simp only [eq_iff_iff]
          omega
        have h1 : binStart (b + w) w i = binStart b w (i + 1) := by
          simp only [binStart]
          push_cast
          ring
        have h2 : binStart (b + w) w (i + 1) = binStart b w (i + 1 + 1) := by
          simp only [binStart]
          push_cast
          ring
        simp only [stmtAt, h1, h2, hc]

lemma floor_le_pyRound (q : ℚ) : ⌊q⌋ ≤ pyRound q := by
  unfold pyRound
  split_ifs <;> omega

lemma pyRound_le_floor_add_one (q : ℚ) : pyRound q ≤ ⌊q⌋ + 1 := by
  unfold pyRound
  split_ifs <;> omega

lemma pyRound_mono {a b : ℚ} (h : a ≤ b) : pyRound a ≤ pyRound b := by
  rcases lt_or_le ⌊a⌋ ⌊b⌋ with hf | hf
  · have h1 := pyRound_le_floor_add_one a
    have h2 := floor_le_pyRound b
    omega
  · have hfe : ⌊a⌋ = ⌊b⌋ := le_antisymm (Int.floor_le_floor h) hf
    have hr : a - (⌊b⌋ : ℚ) ≤ b - (⌊b⌋ : ℚ) := by linarith
    unfold pyRound
    rw [hfe]
    split_ifs <;> first | omega | linarith

/-- The largest index `j ≤ k` satisfying `P`, or `0` when none does. -/
def lastBelow (P : ℕ → Prop) [DecidablePred P] : ℕ → ℕ
  | 0 => 0
  | k + 1 => if P (k + 1) then k + 1 else lastBelow P k

lemma lastBelow_le (P : ℕ → Prop) [DecidablePred P] : ∀ k, lastBelow P k ≤ k := by
  intro k
  induction k with
  | zero => simp [lastBelow]
  | succ m ih =>
    unfold lastBelow
    split_ifs with hp
    · exact le_refl _
    · omega

lemma lastBelow_spec (P : ℕ → Prop) [DecidablePred P] (h0 : P 0) :
    ∀ k, P (lastBelow P k) := by
  intro k
  induction k with
  | zero => simpa [lastBelow] using h0
  | succ m ih =>
    unfold lastBelow
    split_ifs with hp
    · exact hp
    · exact ih

lemma le_lastBelow (P : ℕ → Prop) [DecidablePred P] :
    ∀ k j, j ≤ k → P j → j ≤ lastBelow P k := by
  intro k
  induction k with
  | zero => intro j hj _; omega
  | succ m ih =>
    intro j hj hp
    unfold lastBelow
    split_ifs with hq
    · exact hj
    · have hjm : j ≤ m := by
        rcases Nat.lt_or_ge j (m + 1) with hlt | hge
        · omega
        · exact absurd (le_antisymm hj hge ▸ hp) hq
      exact ih j hjm hp

/-- A nondecreasing family of integer bounds `lo 0, ..., lo (n-1)` partitions
`[lo 0, ∞)`: every `y` at or above the first bound lies in exactly one window
`[lo i, lo (i+1))` (for `i + 1 < n`) or `[lo (n-1), ∞)` (for `i = n - 1`). -/
lemma window_partition (n : ℕ) (hn : 1 ≤ n) (lo : ℕ → ℤ)
    (mono : ∀ i j, i ≤ j → j < n → lo i ≤ lo j) (y : ℚ) (hy : (lo 0 : ℚ) ≤ y) :
    ∃! i, i < n ∧ (lo i : ℚ) ≤ y ∧ (i + 1 < n → y < (lo (i + 1) : ℚ)) := by
  classical
  set P : ℕ → Prop := fun i => (lo i : ℚ) ≤ y with hP
  have hP0 : P 0 := hy
  refine ⟨lastBelow P (n - 1), ⟨?_, ?_, ?_⟩, ?_⟩
  · have := lastBelow_le P (n - 1)
    omega
  · exact lastBelow_spec P hP0 (n - 1)
  · intro hlt
    by_contra hcon
    push_neg at hcon
    have hPi : P (lastBelow P (n - 1) + 1) := hcon
    have : lastBelow P (n - 1) + 1 ≤ lastBelow P (n - 1) :=
      le_lastBelow P (n - 1) _ (by omega) hPi
    omega
  · intro j ⟨hjn, hPj, hjup⟩
    have hjle : j ≤ lastBelow P (n - 1) := le_lastBelow P (n - 1) j (by omega) hPj
    rcases Nat.lt_or_ge j (lastBelow P (n - 1)) with hlt | hge
    · exfalso
      have hj1n : j + 1 < n := by
        have := lastBelow_le P (n - 1)
        omega
      have hup := hjup hj1n
      have hmono : lo (j + 1) ≤ lo (lastBelow P (n - 1)) := by
        apply mono
        · omega
        · have := lastBelow_le P (n - 1)
          omega
      have hPl : (lo (lastBelow P (n - 1)) : ℚ) ≤ y := lastBelow_spec P hP0 (n - 1)
      have : ((lo (j + 1) : ℤ) : ℚ) ≤ (lo (lastBelow P (n - 1)) : ℚ) := by
        exact_mod_cast hmono
      linarith
    · omega

/-- The label of the bin `i` expression in a plan of `n` bins. -/
def labelAt (w mn : ℚ) (n i : ℕ) : String :=
  if i + 1 < n then
    Histogram.formatBinLabels (binStart mn w i) (some (binStart mn w (i + 1)))
  else
    Histogram.formatBinLabels (binStart mn w i) none

lemma stmtAt_labelOf (sc : ScaledCol) (w mn : ℚ) (n i : ℕ) :
    (stmtAt sc w mn n i).labelOf = labelAt w mn n i := by
  unfold stmtAt labelAt
  split_ifs <;> rfl

lemma stmtAt_isSumCase (sc : ScaledCol) (w mn : ℚ) (n i : ℕ) :
    (stmtAt sc w mn n i).isSumCase = true := by
  unfold stmtAt
  split_ifs <;> rfl

lemma stmtAt_eval_bounded (sc : ScaledCol) (w mn : ℚ) (n i : ℕ) (h : i + 1 < n) (x : ℚ) :
    ((stmtAt sc w mn n i).condOf.eval x = true) ↔
      ((pyRound (binStart mn w i * (sc.factor : ℚ)) : ℚ) ≤ x * (sc.factor : ℚ) ∧
        x * (sc.factor : ℚ) < (pyRound (binStart mn w (i + 1) * (sc.factor : ℚ)) : ℚ)) := by
  simp [stmtAt, h, PinotDBHistogram.boundedStmt, AggExpr.condOf, BinCond.eval]

lemma stmtAt_eval_open (sc : ScaledCol) (w mn : ℚ) (n i : ℕ) (h : ¬ (i + 1 < n)) (x : ℚ) :
    ((stmtAt sc w mn n i).condOf.eval x = true) ↔
      ((pyRound (binStart mn w i * (sc.factor : ℚ)) : ℚ) ≤ x * (sc.factor : ℚ)) := by
  simp [stmtAt, h, PinotDBHistogram.openStmt, AggExpr.condOf, BinCond.eval]

lemma stmtsFor_closed (st : BinStrategy) (col : ColumnDescriptor)
    (resIqr resRowCount resMin resMax : ℚ) :
    PinotDBHistogram.stmtsFor st col resIqr resRowCount resMin resMax =
      (List.range (PinotDBHistogram.binPlan st resIqr resRowCount resMin resMax).1).map
        (stmtAt (PinotDBHistogram.scaledColFor col)
          (PinotDBHistogram.binPlan st resIqr resRowCount resMin resMax).2 resMin
          (PinotDBHistogram.binPlan st resIqr resRowCount resMin resMax).1) := by
  unfold PinotDBHistogram.stmtsFor
  exact caseStmtsAux_closed _ _ _ resMin

lemma stmtsFor_length (st : BinStrategy) (col : ColumnDescriptor)
    (resIqr resRowCount resMin resMax : ℚ) :
    (PinotDBHistogram.stmtsFor st col resIqr resRowCount resMin resMax).length =
      (PinotDBHistogram.binPlan st resIqr resRowCount resMin resMax).1 := by
  rw [stmtsFor_closed]
  simp

lemma fnTraced_ok_some {st : BinStrategy} {col : ColumnDescriptor} {res : ResMap}
    {s : DBSession} {hr : HistogramResult} {tr : List (List AggExpr)}
    (h : PinotDBHistogram.fnTraced st col res (some s) = (.ok (some hr), tr)) :
    ∃ resIqr resRowCount resMin resMax row,
      Histogram.getRes res = some (resIqr, resRowCount, resMin, resMax) ∧
      (PinotDBHistogram.binPlan st resIqr resRowCount resMin resMax).1 ≠ 0 ∧
      s (PinotDBHistogram.stmtsFor st col resIqr resRowCount resMin resMax) = some row ∧
      tr = [PinotDBHistogram.stmtsFor st col resIqr resRowCount resMin resMax] ∧
      hr = ⟨(PinotDBHistogram.stmtsFor st col resIqr resRowCount resMin resMax).map
        AggExpr.labelOf, row⟩ := by
  unfold PinotDBHistogram.fnTraced at h
  by_cases hguard : (!(is_quantifiable col) || is_value_non_numeric (res.lookup MetricName.min)
      || is_value_non_numeric (res.lookup MetricName.max)) = true
  · simp [hguard] at h
  · simp only [hguard, if_false, Bool.false_eq_true, ite_false] at h
    rcases hres : Histogram.getRes res with _ | ⟨resIqr, resRowCount, resMin, resMax⟩
    · simp [hres] at h
    · simp only [hres] at h
      by_cases hbins : (PinotDBHistogram.binPlan st resIqr resRowCount resMin resMax).1 = 0
      · simp [hbins] at h
      · simp only [hbins, if_false, ite_false] at h
        rcases hrow : s (PinotDBHistogram.stmtsFor st col resIqr resRowCount resMin resMax)
          with _ | row
        · simp [hrow] at h
        · simp only [hrow] at h
          simp only [Prod.mk.injEq, Except.ok.injEq, Option.some.injEq] at h
          obtain ⟨h1, h2⟩ := h
          exact ⟨resIqr, resRowCount, resMin, resMax, row, rfl, hbins, hrow,
            h2.symm, h1.symm⟩

/-! ## Claim theorems -/

/-- C1. For every `get_hybrid_metrics(column, metric, columnResults)` call on an
adapter whose override registry maps `metric.name()` to a dialect metric type, the
resolved effective metric is the dialect type and the call's result is the dialect
`fn`'s value — for every possible base `fn`, so the base `fn` is never invoked;
when the registry has no entry for `metric.name()` (in particular when empty), the
base metric is resolved and the result is the base `fn`'s value, for every possible
dialect `fn`. The same holds through `PinotDBProfilerInterface.get_hybrid_metrics`,
whose extra resolution step is idempotent because the dialect metric keeps the base
metric's name. -/
theorem hybrid_dispatch_isolation {α β : Type}
    (overrides ov2 : List (String × HybridMetricTy α β))
    (nm dnm : String) (baseFn dialectFn : α → β) (args : α)
    (hhit : overrides.lookup nm = some ⟨dnm, dialectFn⟩)
    (hmiss : ov2.lookup nm = none)
    (hfix : dnm = nm) :
    (resolveEffective overrides ⟨nm, baseFn⟩ = ⟨dnm, dialectFn⟩ ∧
      SQAProfilerInterface.getHybridMetrics ⟨overrides⟩ ⟨nm, baseFn⟩ args = dialectFn args ∧
      PinotDBProfilerInterface.getHybridMetrics ⟨overrides⟩ ⟨nm, baseFn⟩ args =
        dialectFn args) ∧
    (resolveEffective ov2 ⟨nm, baseFn⟩ = ⟨nm, baseFn⟩ ∧
      SQAProfilerInterface.getHybridMetrics ⟨ov2⟩ ⟨nm, baseFn⟩ args = baseFn args ∧
      PinotDBProfilerInterface.getHybridMetrics ⟨ov2⟩ ⟨nm, baseFn⟩ args = baseFn args) := by
  subst hfix
  constructor
  · refine ⟨?_, ?_, ?_⟩
    · simp [resolveEffective, hhit]
    · simp [SQAProfilerInterface.getHybridMetrics, resolveEffective, hhit]
    · simp [PinotDBProfilerInterface.getHybridMetrics,
        SQAProfilerInterface.getHybridMetrics, resolveEffective, hhit]
  · refine ⟨?_, ?_, ?_⟩
    · simp [resolveEffective, hmiss]
    · simp [SQAProfilerInterface.getHybridMetrics, resolveEffective, hmiss]
    · simp [PinotDBProfilerInterface.getHybridMetrics,
        SQAProfilerInterface.getHybridMetrics, resolveEffective, hmiss]

/-- Witness for C1: with `overrides = {"histogram": dialect}` the dialect `fn`'s
value (1) is returned; with `overrides = {}` the base `fn`'s value (0) is. -/
theorem hybrid_dispatch_isolation_witness :
    (resolveEffective [(MetricTypeHistogram, ⟨MetricTypeHistogram, fun _ : Unit => (1 : ℕ)⟩)]
        ⟨MetricTypeHistogram, fun _ : Unit => (0 : ℕ)⟩ =
        ⟨MetricTypeHistogram, fun _ : Unit => (1 : ℕ)⟩ ∧
      SQAProfilerInterface.getHybridMetrics
        ⟨[(MetricTypeHistogram, ⟨MetricTypeHistogram, fun _ : Unit => (1 : ℕ)⟩)]⟩
        ⟨MetricTypeHistogram, fun _ : Unit => (0 : ℕ)⟩ () = 1 ∧
      PinotDBProfilerInterface.getHybridMetrics
        ⟨[(MetricTypeHistogram, ⟨MetricTypeHistogram, fun _ : Unit => (1 : ℕ)⟩)]⟩
        ⟨MetricTypeHistogram, fun _ : Unit => (0 : ℕ)⟩ () = 1) ∧
    (resolveEffective ([] : List (String × HybridMetricTy Unit ℕ))
        ⟨MetricTypeHistogram, fun _ : Unit => (0 : ℕ)⟩ =
        ⟨MetricTypeHistogram, fun _ : Unit => (0 : ℕ)⟩ ∧
      SQAProfilerInterface.getHybridMetrics ⟨[]⟩
        ⟨MetricTypeHistogram, fun _ : Unit => (0 : ℕ)⟩ () = 0 ∧
      PinotDBProfilerInterface.getHybridMetrics ⟨[]⟩
        ⟨MetricTypeHistogram, fun _ : Unit => (0 : ℕ)⟩ () = 0) :=
  hybrid_dispatch_isolation
    [(MetricTypeHistogram, ⟨MetricTypeHistogram, fun _ : Unit => (1 : ℕ)⟩)] []
    MetricTypeHistogram MetricTypeHistogram (fun _ => 0) (fun _ => 1) ()
    rfl rfl rfl

/-- C2. The bin plan inside the Pinot adapter's `fn` is identical to the generic
`_get_bins` plan, for every bin strategy and every input quadruple (in particular
for `iqr = 25, rowCount = 100, min = 0, max = 100`): the adapter never recomputes
the bin-size math, and the query `fn` emits has exactly the generic plan's number
of aggregate expressions — only the query construction differs. -/
theorem pinot_binplan_refines_generic (st : BinStrategy) (col : ColumnDescriptor)
    (resIqr resRowCount resMin resMax : ℚ) :
    PinotDBHistogram.binPlan st resIqr resRowCount resMin resMax =
      Histogram.binPlan st resIqr resRowCount resMin resMax ∧
    PinotDBHistogram.binPlan st 25 100 0 100 = Histogram.binPlan st 25 100 0 100 ∧
    (PinotDBHistogram.stmtsFor st col resIqr resRowCount resMin resMax).length =
      (Histogram.binPlan st resIqr resRowCount resMin resMax).1 :=
  ⟨rfl, rfl, stmtsFor_length st col resIqr resRowCount resMin resMax⟩

/-- C3. For every string `s` and limit `L`: `len(s) ≤ L` (including exactly at
the limit) gives `s` back unchanged; `len(s) > L` gives exactly the first `L`
characters, prefix preserved, no suffix marker; every non-string value is returned
unchanged (truncation is a total function by construction). -/
theorem truncate_cell_spec (L : ℕ) (s : String) (v : CellValue) :
    (s.length ≤ L → SamplerInterface.truncateCell L (.str s) = .str s) ∧
    (L < s.length →
      SamplerInterface.truncateCell L (.str s) = .str (s.take L) ∧
      (s.take L).length = L) ∧
    (v.isString = false → SamplerInterface.truncateCell L v = v) := by
  refine ⟨?_, ?_, ?_⟩
  · intro h
    simp [SamplerInterface.truncateCell, Nat.not_lt.2 h]
  · intro h
    refine ⟨by simp [SamplerInterface.truncateCell, h], ?_⟩
    rw [String.take_eq]
    show (s.data.take L).length = L
    rw [List.length_take]
    have hs : s.length = s.data.length := rfl
    omega
  · intro h
    cases v <;> simp_all [SamplerInterface.truncateCell, CellValue.isString]

/-- Witness for C3: an 8-character string truncates at limit 5 to its 5-character
prefix; a short string, an at-limit string, an integer and a null pass through. -/
theorem truncate_cell_spec_witness :
    SamplerInterface.truncateCell 5 (.str ("abcdefgh")) = .str ("abcde") ∧
    SamplerInterface.truncateCell 5 (.str ("abcde")) = .str ("abcde") ∧
    SamplerInterface.truncateCell 5 (.str ("abc")) = .str ("abc") ∧
    SamplerInterface.truncateCell 5 (.intV 7) = .intV 7 ∧
    SamplerInterface.truncateCell 5 .nullV = .nullV := by
  have h1 := ((truncate_cell_spec 5 "abcdefgh" (.intV 7)).2.1 (by decide)).1
  have h2 := (truncate_cell_spec 5 "abcde" (.intV 7)).1 (by decide)
  have h3 := (truncate_cell_spec 5 "abc" (.intV 7)).1 (by decide)
  have h4 := (truncate_cell_spec 5 "abc" (.intV 7)).2.2 (by decide)
  have h5 := (truncate_cell_spec 5 "abc" .nullV).2.2 (by decide)
  refine ⟨?_, h2, h3, h4, h5⟩
  rw [h1]
  decide

/-- C8. Each adapter instance's `get_hybrid_metrics` resolves overrides only
from the registry attached to that instance; instances with different registries
never observe each other's entries, the base-class registry is the empty map, the
Pinot registry is exactly the histogram singleton, and (values being immutable in
the embedding) constructing or using a `PinotDBProfilerInterface` leaves
`SQAProfilerInterface.HYBRID_METRIC_OVERRIDES` empty. -/
theorem registry_isolation {α β : Type} (pinotHistogram m : HybridMetricTy α β)
    (args : α) (r1 r2 : List (String × HybridMetricTy α β)) :
    @SQAProfilerInterface.HYBRID_METRIC_OVERRIDES α β = [] ∧
    PinotDBProfilerInterface.HYBRID_METRIC_OVERRIDES pinotHistogram =
      [(MetricTypeHistogram, pinotHistogram)] ∧
    SQAProfilerInterface.getHybridMetrics ⟨r1⟩ m args =
      (resolveEffective r1 m).fnImpl args ∧
    SQAProfilerInterface.getHybridMetrics ⟨r2⟩ m args =
      (resolveEffective r2 m).fnImpl args ∧
    SQAProfilerInterface.getHybridMetrics
      ⟨@SQAProfilerInterface.HYBRID_METRIC_OVERRIDES α β⟩ m args = m.fnImpl args ∧
    PinotDBProfilerInterface.getHybridMetrics
      ⟨PinotDBProfilerInterface.HYBRID_METRIC_OVERRIDES pinotHistogram⟩ m args =
      (resolveEffective (PinotDBProfilerInterface.HYBRID_METRIC_OVERRIDES pinotHistogram)
        (resolveEffective (PinotDBProfilerInterface.HYBRID_METRIC_OVERRIDES pinotHistogram)
          m)).fnImpl args := by
  refine ⟨rfl, rfl, rfl, rfl, ?_, rfl⟩
  simp [SQAProfilerInterface.getHybridMetrics, resolveEffective,
    SQAProfilerInterface.HYBRID_METRIC_OVERRIDES]

/-- C9. With a missing (falsy) session, `PinotDBHistogram.fn` raises the
`AttributeError` before inspecting the column type or the results map: the error is
returned for every column descriptor and every results map, and no query is
emitted. -/
theorem fn_missing_session_raises (st : BinStrategy) (col : ColumnDescriptor)
    (res : ResMap) :
    PinotDBHistogram.fnTraced st col res none =
      (.error PinotDBHistogram.missingSessionMsg, []) ∧
    PinotDBHistogram.fn st col res none = .error PinotDBHistogram.missingSessionMsg :=
  ⟨rfl, rfl⟩

/-- C5. `PinotDBHistogram.fn` returns `None` — and raises nothing — when the
column type is not quantifiable; when the `Min` or `Max` entry is a non-numeric
sentinel; when a required prior result (iqr, count, min, max) is missing; when the
derived bin count is 0; and when the executed aggregate query returns no row. -/
theorem fn_unsupported_inputs_yield_none (st : BinStrategy) (col : ColumnDescriptor)
    (res : ResMap) (s : DBSession) :
    (is_quantifiable col = false → PinotDBHistogram.fn st col res (some s) = .ok none) ∧
    (is_value_non_numeric (res.lookup MetricName.min) = true →
      PinotDBHistogram.fn st col res (some s) = .ok none) ∧
    (is_value_non_numeric (res.lookup MetricName.max) = true →
      PinotDBHistogram.fn st col res (some s) = .ok none) ∧
    (Histogram.getRes res = none → PinotDBHistogram.fn st col res (some s) = .ok none) ∧
    (∀ resIqr resRowCount resMin resMax,
      Histogram.getRes res = some (resIqr, resRowCount, resMin, resMax) →
      (PinotDBHistogram.binPlan st resIqr resRowCount resMin resMax).1 = 0 →
      PinotDBHistogram.fn st col res (some s) = .ok none) ∧
    ((∀ q, s q = none) → PinotDBHistogram.fn st col res (some s) = .ok none) := by
  refine ⟨?_, ?_, ?_, ?_, ?_, ?_⟩
  · intro h
    simp [PinotDBHistogram.fn, PinotDBHistogram.fnTraced, h]
  · intro h
    simp [PinotDBHistogram.fn, PinotDBHistogram.fnTraced, h]
  · intro h
    simp [PinotDBHistogram.fn, PinotDBHistogram.fnTraced, h]
  · intro h
    by_cases hguard : (!(is_quantifiable col)
        || is_value_non_numeric (res.lookup MetricName.min)
        || is_value_non_numeric (res.lookup MetricName.max)) = true
    · simp [PinotDBHistogram.fn, PinotDBHistogram.fnTraced, hguard]
    · simp [PinotDBHistogram.fn, PinotDBHistogram.fnTraced, hguard, h]
  · intro resIqr resRowCount resMin resMax hres hplan
    by_cases hguard : (!(is_quantifiable col)
        || is_value_non_numeric (res.lookup MetricName.min)
        || is_value_non_numeric (res.lookup MetricName.max)) = true
    · simp [PinotDBHistogram.fn, PinotDBHistogram.fnTraced, hguard]
    · simp [PinotDBHistogram.fn, PinotDBHistogram.fnTraced, hguard, hres, hplan]
  · intro hs
    by_cases hguard : (!(is_quantifiable col)
        || is_value_non_numeric (res.lookup MetricName.min)
        || is_value_non_numeric (res.lookup MetricName.max)) = true
    · simp [PinotDBHistogram.fn, PinotDBHistogram.fnTraced, hguard]
    · rcases hres : Histogram.getRes res with _ | ⟨resIqr, resRowCount, resMin, resMax⟩
      · simp [PinotDBHistogram.fn, PinotDBHistogram.fnTraced, hguard, hres]
      · by_cases hplan : (PinotDBHistogram.binPlan st resIqr resRowCount resMin resMax).1 = 0
        · simp [PinotDBHistogram.fn, PinotDBHistogram.fnTraced, hguard, hres, hplan]
        · simp [PinotDBHistogram.fn, PinotDBHistogram.fnTraced, hguard, hres, hplan,
            hs (PinotDBHistogram.stmtsFor st col resIqr resRowCount resMin resMax)]

/-- Witness for C5: each of the five `None` cases at concrete inputs — a
non-quantifiable column, a sentinel `min`, a results map missing `count`/`iqr`, a
strategy deriving 0 bins, and a session returning no row. -/
theorem fn_unsupported_inputs_yield_none_witness :
    PinotDBHistogram.fn ⟨fun _ _ _ _ => (2, 7)⟩ ⟨"age", false, false⟩ []
      (some fun _ => none) = .ok none ∧
    PinotDBHistogram.fn ⟨fun _ _ _ _ => (2, 7)⟩ ⟨"age", true, false⟩
      [(MetricName.min, ResVal.sentinel)] (some fun _ => none) = .ok none ∧
    PinotDBHistogram.fn ⟨fun _ _ _ _ => (2, 7)⟩ ⟨"age", true, false⟩
      [(MetricName.min, ResVal.num 0), (MetricName.max, ResVal.num 100)]
      (some fun _ => none) = .ok none ∧
    PinotDBHistogram.fn ⟨fun _ _ _ _ => (0, 7)⟩ ⟨"age", true, false⟩
      [(MetricName.interQuartileRange, ResVal.num 25), (MetricName.count, ResVal.num 100),
        (MetricName.min, ResVal.num 0), (MetricName.max, ResVal.num 100)]
      (some fun _ => none) = .ok none ∧
    PinotDBHistogram.fn ⟨fun _ _ _ _ => (2, 7)⟩ ⟨"age", true, false⟩
      [(MetricName.interQuartileRange, ResVal.num 25), (MetricName.count, ResVal.num 100),
        (MetricName.min, ResVal.num 0), (MetricName.max, ResVal.num 100)]
      (some fun _ => none) = .ok none := by
  refine ⟨?_, ?_, ?_, ?_, ?_⟩
  · exact (fn_unsupported_inputs_yield_none _ _ _ _).1 rfl
  · exact (fn_unsupported_inputs_yield_none _ _ _ _).2.1 rfl
  · exact (fn_unsupported_inputs_yield_none _ _ _ _).2.2.2.1 rfl
  · exact (fn_unsupported_inputs_yield_none _ _ _ _).2.2.2.2.1 25 100 0 100 rfl rfl
  · exact (fn_unsupported_inputs_yield_none _ _ _ _).2.2.2.2.2 (fun _ => rfl)

/-- Every atomic comparison in the condition is over the scaled form of `c`. -/
def BinCond.usesCol (c : ColExpr) : BinCond → Bool
  | .geC sc _ => decide (sc.base = c)
  | .ltC sc _ => decide (sc.base = c)
  | .andC a b => a.usesCol c && b.usesCol c

/-- Every comparison in the expression's condition is over the scaled form of `c`. -/
def AggExpr.usesCol (c : ColExpr) (e : AggExpr) : Bool :=
  e.condOf.usesCol c

lemma stmtAt_usesCol (sc : ScaledCol) (w mn : ℚ) (n i : ℕ) :
    (stmtAt sc w mn n i).usesCol sc.base = true := by
  unfold stmtAt
  split_ifs <;>
    simp [AggExpr.usesCol, AggExpr.condOf, PinotDBHistogram.boundedStmt,
      PinotDBHistogram.openStmt, BinCond.usesCol]

/-- C6. A textual (concatenable) column is a supported input: it passes the
quantifiability guard (so `fn` does not return `None` merely for being textual —
with numeric `min`/`max` the unsupported-input guard is false), and every per-bin
aggregate condition `fn` builds compares `length(column)`, scaled, rather than the
raw value. -/
theorem textual_column_histogram_over_length (st : BinStrategy) (col : ColumnDescriptor)
    (res : ResMap) (htext : col.isTextual = true) :
    is_quantifiable col = true ∧
    PinotDBHistogram.scaledColFor col =
      ⟨.lengthOf col.name, PinotDBHistogram.SCALE_FACTOR⟩ ∧
    (is_value_non_numeric (res.lookup MetricName.min) = false →
      is_value_non_numeric (res.lookup MetricName.max) = false →
      (!(is_quantifiable col) || is_value_non_numeric (res.lookup MetricName.min)
        || is_value_non_numeric (res.lookup MetricName.max)) = false) ∧
    (∀ resIqr resRowCount resMin resMax stmt,
      stmt ∈ PinotDBHistogram.stmtsFor st col resIqr resRowCount resMin resMax →
      stmt.usesCol (.lengthOf col.name) = true) := by
  have hq : is_quantifiable col = true := by simp [is_quantifiable, htext]
  have hc : is_concatenable col = true := htext
  refine ⟨hq, ?_, ?_, ?_⟩
  · simp [PinotDBHistogram.scaledColFor, hc]
  · intro h1 h2
    simp [hq, h1, h2]
  · intro resIqr resRowCount resMin resMax stmt hmem
    rw [stmtsFor_closed] at hmem
    obtain ⟨i, hi, hstmt⟩ := List.mem_map.1 hmem
    have hus := stmtAt_usesCol (PinotDBHistogram.scaledColFor col)
      (PinotDBHistogram.binPlan st resIqr resRowCount resMin resMax).2 resMin
      (PinotDBHistogram.binPlan st resIqr resRowCount resMin resMax).1 i
    rw [← hstmt]
    simpa [PinotDBHistogram.scaledColFor, hc] using hus

/-- Witness for C6: a concrete textual column named `body` is quantifiable and its
scaled column is `LenFn(column("body")) * 1000`. -/
theorem textual_column_histogram_over_length_witness :
    is_quantifiable ⟨"body", false, true⟩ = true ∧
    PinotDBHistogram.scaledColFor ⟨"body", false, true⟩ =
      ⟨.lengthOf ("body"), PinotDBHistogram.SCALE_FACTOR⟩ := by
  have h := textual_column_histogram_over_length ⟨fun _ _ _ _ => (2, 7)⟩
    ⟨"body", false, true⟩ [] rfl
  exact ⟨h.1, h.2.1⟩

/-- C4. When the guard passes, the prior results resolve and the plan derives
`n ≥ 1` bins, `fn` hands the session exactly one query of exactly `n` conditional
aggregates, all of the `SUM(CASE WHEN cond THEN 1 ELSE 0 END)` form (never
`COUNT(CASE ...)`): bin `i < n-1` counts `round(start*SF) ≤ col*SF < round(end*SF)`
and the final bin counts `col*SF ≥ round(start*SF)`, with `SF = 1000`. -/
theorem fn_single_query_sumcase_shape (st : BinStrategy) (col : ColumnDescriptor)
    (res : ResMap) (s : DBSession) (resIqr resRowCount resMin resMax : ℚ)
    (n : ℕ) (w : ℚ)
    (hguard : (!(is_quantifiable col) || is_value_non_numeric (res.lookup MetricName.min)
      || is_value_non_numeric (res.lookup MetricName.max)) = false)
    (hres : Histogram.getRes res = some (resIqr, resRowCount, resMin, resMax))
    (hplan : PinotDBHistogram.binPlan st resIqr resRowCount resMin resMax = (n, w))
    (hn : 1 ≤ n) :
    (PinotDBHistogram.fnTraced st col res (some s)).2 =
      [PinotDBHistogram.stmtsFor st col resIqr resRowCount resMin resMax] ∧
    (PinotDBHistogram.stmtsFor st col resIqr resRowCount resMin resMax).length = n ∧
    (∀ stmt ∈ PinotDBHistogram.stmtsFor st col resIqr resRowCount resMin resMax,
      stmt.isSumCase = true) ∧
    (∀ i, i + 1 < n →
      (PinotDBHistogram.stmtsFor st col resIqr resRowCount resMin resMax)[i]? =
        some (.sumCase
          (.andC
            (.geC (PinotDBHistogram.scaledColFor col)
              (pyRound (binStart resMin w i * (PinotDBHistogram.SCALE_FACTOR : ℚ))))
            (.ltC (PinotDBHistogram.scaledColFor col)
              (pyRound (binStart resMin w (i + 1) * (PinotDBHistogram.SCALE_FACTOR : ℚ)))))
          1 0
          (Histogram.formatBinLabels (binStart resMin w i)
            (some (binStart resMin w (i + 1)))))) ∧
    (PinotDBHistogram.stmtsFor st col resIqr resRowCount resMin resMax)[n - 1]? =
      some (.sumCase
        (.geC (PinotDBHistogram.scaledColFor col)
          (pyRound (binStart resMin w (n - 1) * (PinotDBHistogram.SCALE_FACTOR : ℚ))))
        1 0
        (Histogram.formatBinLabels (binStart resMin w (n - 1)) none)) := by
  have hn0 : ¬((PinotDBHistogram.binPlan st resIqr resRowCount resMin resMax).1 = 0) := by
    rw [hplan]
    omega
  have hcl := stmtsFor_closed st col resIqr resRowCount resMin resMax
  rw [hplan] at hcl
  have hF : (PinotDBHistogram.scaledColFor col).factor = PinotDBHistogram.SCALE_FACTOR := rfl
  refine ⟨?_, ?_, ?_, ?_, ?_⟩
  · unfold PinotDBHistogram.fnTraced
    simp only [hguard, Bool.false_eq_true, if_false, ite_false, hres]
    simp only [hn0, if_false, ite_false]
    rcases hq : s (PinotDBHistogram.stmtsFor st col resIqr resRowCount resMin resMax)
      with _ | row <;> simp [hq]
  · rw [stmtsFor_length, hplan]
  · intro stmt hmem
    rw [hcl] at hmem
    obtain ⟨i, hi, hstmt⟩ := List.mem_map.1 hmem
    rw [← hstmt]
    exact stmtAt_isSumCase _ _ _ _ _
  · intro i hib
    rw [hcl, List.getElem?_map, List.getElem?_range (by omega : i < n)]
    simp only [Option.map_some']
    have : stmtAt (PinotDBHistogram.scaledColFor col) w resMin n i =
        PinotDBHistogram.boundedStmt (PinotDBHistogram.scaledColFor col)
          (binStart resMin w i) (binStart resMin w (i + 1)) := by
      simp [stmtAt, hib]
    rw [this]
    unfold PinotDBHistogram.boundedStmt
    rw [hF]
  · rw [hcl, List.getElem?_map, List.getElem?_range (by omega : n - 1 < n)]
    simp only [Option.map_some']
    have hnb : ¬(n - 1 + 1 < n) := by omega
    have : stmtAt (PinotDBHistogram.scaledColFor col) w resMin n (n - 1) =
        PinotDBHistogram.openStmt (PinotDBHistogram.scaledColFor col)
          (binStart resMin w (n - 1)) := by
      simp [stmtAt, hnb]
    rw [this]
    unfold PinotDBHistogram.openStmt
    rw [hF]

/-- Witness for C4: a 3-bin plan (width 7, min 0) over a numeric column emits one
query of three `SUM(CASE ...)` aggregates with scaled bounds 0, 7000, 14000. -/
theorem fn_single_query_sumcase_shape_witness :
    (PinotDBHistogram.fnTraced ⟨fun _ _ _ _ => (3, 7)⟩ ⟨"age", true, false⟩
      [(MetricName.interQuartileRange, ResVal.num 25), (MetricName.count, ResVal.num 100),
        (MetricName.min, ResVal.num 0), (MetricName.max, ResVal.num 100)]
      (some fun _ => none)).2 =
      [PinotDBHistogram.stmtsFor ⟨fun _ _ _ _ => (3, 7)⟩ ⟨"age", true, false⟩ 25 100 0 100] ∧
    (PinotDBHistogram.stmtsFor ⟨fun _ _ _ _ => (3, 7)⟩ ⟨"age", true, false⟩
      25 100 0 100).length = 3 ∧
    (PinotDBHistogram.stmtsFor ⟨fun _ _ _ _ => (3, 7)⟩ ⟨"age", true, false⟩
      25 100 0 100)[0]? =
      some (.sumCase
        (.andC (.geC ⟨.named ("age"), 1000⟩ 0) (.ltC ⟨.named ("age"), 1000⟩ 7000))
        1 0 "0.000 to 7.000") ∧
    (PinotDBHistogram.stmtsFor ⟨fun _ _ _ _ => (3, 7)⟩ ⟨"age", true, false⟩
      25 100 0 100)[2]? =
      some (.sumCase (.geC ⟨.named ("age"), 1000⟩ 14000) 1 0 "14.000 and up") := by
  have h := fn_single_query_sumcase_shape ⟨fun _ _ _ _ => (3, 7)⟩ ⟨"age", true, false⟩
    [(MetricName.interQuartileRange, ResVal.num 25), (MetricName.count, ResVal.num 100),
      (MetricName.min, ResVal.num 0), (MetricName.max, ResVal.num 100)]
    (fun _ => none) 25 100 0 100 3 7 rfl rfl rfl (by omega)
  refine ⟨h.1, h.2.1, ?_, ?_⟩
  · have h0 := h.2.2.2.1 0 (by omega)
    rw [h0]
    decide
  · have h2 := h.2.2.2.2
    rw [h2]
    decide

/-- C7. Whenever `fn` returns a non-`None` result (under SQL row semantics:
the session returns one value per selected expression), the prior results of the
run resolve to some `(iqr, rowCount, min, max)` and, with `numBins` and `binWidth`
the bin plan `fn` derives from exactly those values,
`len(boundaries) = len(frequencies) = numBins`; boundaries are the bin labels of
that plan in ascending bin order, every non-final label reads
`"{start:.3f} to {end:.3f}"` over the plan's accumulated bounds `min + i*binWidth`,
and only the final label reads `"{start:.3f} and up"`. -/
theorem fn_result_invariants (st : BinStrategy) (col : ColumnDescriptor) (res : ResMap)
    (s : DBSession) (hr : HistogramResult)
    (hwf : DBSession.wellFormed s)
    (h : PinotDBHistogram.fn st col res (some s) = .ok (some hr)) :
    ∃ resIqr resRowCount resMin resMax,
      Histogram.getRes res = some (resIqr, resRowCount, resMin, resMax) ∧
      1 ≤ (PinotDBHistogram.binPlan st resIqr resRowCount resMin resMax).1 ∧
      hr.boundaries.length =
        (PinotDBHistogram.binPlan st resIqr resRowCount resMin resMax).1 ∧
      hr.frequencies.length =
        (PinotDBHistogram.binPlan st resIqr resRowCount resMin resMax).1 ∧
      hr.boundaries =
        (List.range (PinotDBHistogram.binPlan st resIqr resRowCount resMin resMax).1).map
          (labelAt (PinotDBHistogram.binPlan st resIqr resRowCount resMin resMax).2 resMin
            (PinotDBHistogram.binPlan st resIqr resRowCount resMin resMax).1) ∧
      (∀ i, i + 1 < (PinotDBHistogram.binPlan st resIqr resRowCount resMin resMax).1 →
        hr.boundaries[i]? =
          some (fmt3 (binStart resMin
              (PinotDBHistogram.binPlan st resIqr resRowCount resMin resMax).2 i) ++
            " to " ++
            fmt3 (binStart resMin
              (PinotDBHistogram.binPlan st resIqr resRowCount resMin resMax).2 (i + 1)))) ∧
      hr.boundaries[(PinotDBHistogram.binPlan st resIqr resRowCount resMin resMax).1 - 1]? =
        some (fmt3 (binStart resMin
            (PinotDBHistogram.binPlan st resIqr resRowCount resMin resMax).2
            ((PinotDBHistogram.binPlan st resIqr resRowCount resMin resMax).1 - 1)) ++
          " and up") := by
  rcases hE : PinotDBHistogram.fnTraced st col res (some s) with ⟨r1, tr⟩
  unfold PinotDBHistogram.fn at h
  rw [hE] at h
  simp only at h
  subst h
  obtain ⟨resIqr, resRowCount, resMin, resMax, row, hres, hn0, hrow, htr, hhr⟩ :=
    fnTraced_ok_some hE
  refine ⟨resIqr, resRowCount, resMin, resMax, hres, by omega, ?_, ?_, ?_, ?_, ?_⟩
  · rw [hhr]
    show ((PinotDBHistogram.stmtsFor st col resIqr resRowCount resMin resMax).map
      AggExpr.labelOf).length = _
    rw [List.length_map, stmtsFor_length]
  · rw [hhr]
    show row.length = _
    rw [hwf _ _ hrow, stmtsFor_length]
  · rw [hhr]
    show (PinotDBHistogram.stmtsFor st col resIqr resRowCount resMin resMax).map
      AggExpr.labelOf = _
    rw [stmtsFor_closed, List.map_map]
    exact List.map_congr_left fun i _ => stmtAt_labelOf _ _ _ _ _
  · intro i hib
    rw [hhr]
    show ((PinotDBHistogram.stmtsFor st col resIqr resRowCount resMin resMax).map
      AggExpr.labelOf)[i]? = _
    rw [stmtsFor_closed, List.map_map, List.getElem?_map,
      List.getElem?_range (by omega : i < _)]
    simp only [Option.map_some']
    show some ((stmtAt _ _ _ _ i).labelOf) = _
    rw [stmtAt_labelOf]
    unfold labelAt
    rw [if_pos hib]
    rfl
  · rw [hhr]
    show ((PinotDBHistogram.stmtsFor st col resIqr resRowCount resMin resMax).map
      AggExpr.labelOf)[(PinotDBHistogram.binPlan st resIqr resRowCount resMin resMax).1 - 1]? = _
    rw [stmtsFor_closed, List.map_map, List.getElem?_map,
      List.getElem?_range (by omega : _ - 1 < _)]
    simp only [Option.map_some']
    show some ((stmtAt _ _ _ _ _).labelOf) = _
    rw [stmtAt_labelOf]
    unfold labelAt
    rw [if_neg (by omega)]
    rfl

/-- Witness for C7: a concrete 2-bin run (width 7, min 0) over a numeric column,
with a session returning one count per aggregate, yields boundaries
`["0.000 to 7.000", "7.000 and up"]` and frequencies `[1, 1]`, satisfying the
invariants. -/
theorem fn_result_invariants_witness :
    PinotDBHistogram.fn ⟨fun _ _ _ _ => (2, 7)⟩ ⟨"age", true, false⟩
      [(MetricName.interQuartileRange, ResVal.num 25), (MetricName.count, ResVal.num 100),
        (MetricName.min, ResVal.num 0), (MetricName.max, ResVal.num 100)]
      (some fun q => some (q.map fun _ => 1)) =
      .ok (some ⟨["0.000 to 7.000", "7.000 and up"], [1, 1]⟩) ∧
    (∃ resIqr resRowCount resMin resMax,
      Histogram.getRes
          [(MetricName.interQuartileRange, ResVal.num 25), (MetricName.count, ResVal.num 100),
            (MetricName.min, ResVal.num 0), (MetricName.max, ResVal.num 100)] =
        some (resIqr, resRowCount, resMin, resMax) ∧
      1 ≤ (PinotDBHistogram.binPlan ⟨fun _ _ _ _ => (2, 7)⟩
        resIqr resRowCount resMin resMax).1 ∧
      (HistogramResult.mk ["0.000 to 7.000", "7.000 and up"] [1, 1]).boundaries.length =
        (PinotDBHistogram.binPlan ⟨fun _ _ _ _ => (2, 7)⟩
          resIqr resRowCount resMin resMax).1 ∧
      (HistogramResult.mk ["0.000 to 7.000", "7.000 and up"] [1, 1]).frequencies.length =
        (PinotDBHistogram.binPlan ⟨fun _ _ _ _ => (2, 7)⟩
          resIqr resRowCount resMin resMax).1 ∧
      (HistogramResult.mk ["0.000 to 7.000", "7.000 and up"] [1, 1]).boundaries =
        (List.range (PinotDBHistogram.binPlan ⟨fun _ _ _ _ => (2, 7)⟩
            resIqr resRowCount resMin resMax).1).map
          (labelAt (PinotDBHistogram.binPlan ⟨fun _ _ _ _ => (2, 7)⟩
              resIqr resRowCount resMin resMax).2 resMin
            (PinotDBHistogram.binPlan ⟨fun _ _ _ _ => (2, 7)⟩
              resIqr resRowCount resMin resMax).1) ∧
      (∀ i, i + 1 < (PinotDBHistogram.binPlan ⟨fun _ _ _ _ => (2, 7)⟩
          resIqr resRowCount resMin resMax).1 →
        (HistogramResult.mk ["0.000 to 7.000", "7.000 and up"] [1, 1]).boundaries[i]? =
          some (fmt3 (binStart resMin (PinotDBHistogram.binPlan ⟨fun _ _ _ _ => (2, 7)⟩
              resIqr resRowCount resMin resMax).2 i) ++ " to " ++
            fmt3 (binStart resMin (PinotDBHistogram.binPlan ⟨fun _ _ _ _ => (2, 7)⟩
              resIqr resRowCount resMin resMax).2 (i + 1)))) ∧
      (HistogramResult.mk ["0.000 to 7.000", "7.000 and up"] [1, 1]).boundaries[
          (PinotDBHistogram.binPlan ⟨fun _ _ _ _ => (2, 7)⟩
            resIqr resRowCount resMin resMax).1 - 1]? =
        some (fmt3 (binStart resMin (PinotDBHistogram.binPlan ⟨fun _ _ _ _ => (2, 7)⟩
              resIqr resRowCount resMin resMax).2
            ((PinotDBHistogram.binPlan ⟨fun _ _ _ _ => (2, 7)⟩
              resIqr resRowCount resMin resMax).1 - 1)) ++ " and up")) := by
  have hfn : PinotDBHistogram.fn ⟨fun _ _ _ _ => (2, 7)⟩ ⟨"age", true, false⟩
      [(MetricName.interQuartileRange, ResVal.num 25), (MetricName.count, ResVal.num 100),
        (MetricName.min, ResVal.num 0), (MetricName.max, ResVal.num 100)]
      (some fun q => some (q.map fun _ => 1)) =
      .ok (some ⟨["0.000 to 7.000", "7.000 and up"], [1, 1]⟩) := by
    rfl
  refine ⟨hfn, ?_⟩
  exact fn_result_invariants _ _ _ _ _
    (fun q r hqr => by
      have hmap : q.map (fun _ => (1 : ℤ)) = r := Option.some.inj hqr
      rw [← hmap, List.length_map])
    hfn

/-- C10. In every query built with `numBins ≥ 2`, the scaled upper bound of bin
`i` and the scaled lower bound of bin `i+1` are the same integer
`round(boundary * SCALE_FACTOR)` of the same accumulated boundary; hence (the bin
width from the Freedman–Diaconis rule being nonnegative) the per-bin conditions are
pairwise disjoint, and every scaled column value at or above the first scaled bound
satisfies exactly one bin condition. -/
theorem scaled_bounds_partition (st : BinStrategy) (col : ColumnDescriptor)
    (resIqr resRowCount resMin resMax : ℚ) (n : ℕ) (w : ℚ)
    (hplan : PinotDBHistogram.binPlan st resIqr resRowCount resMin resMax = (n, w))
    (hn : 2 ≤ n) (hw : 0 ≤ w) :
    (∀ i, i + 1 < n →
      ((PinotDBHistogram.stmtsFor st col resIqr resRowCount resMin resMax)[i]?.bind
          AggExpr.upperScaled =
        some (pyRound (binStart resMin w (i + 1) * (PinotDBHistogram.SCALE_FACTOR : ℚ))) ∧
       (PinotDBHistogram.stmtsFor st col resIqr resRowCount resMin resMax)[i + 1]?.bind
          AggExpr.lowerScaled =
        some (pyRound (binStart resMin w (i + 1) * (PinotDBHistogram.SCALE_FACTOR : ℚ))))) ∧
    (∀ x : ℚ,
      ((pyRound (binStart resMin w 0 * (PinotDBHistogram.SCALE_FACTOR : ℚ)) : ℤ) : ℚ) ≤
        x * (PinotDBHistogram.SCALE_FACTOR : ℚ) →
      ∃! i : ℕ, ∃ stmt,
        (PinotDBHistogram.stmtsFor st col resIqr resRowCount resMin resMax)[i]? =
          some stmt ∧
        stmt.condOf.eval x = true) ∧
    (∀ (x : ℚ) (i j : ℕ), i < j →
      ∀ stmtI stmtJ,
        (PinotDBHistogram.stmtsFor st col resIqr resRowCount resMin resMax)[i]? =
          some stmtI →
        (PinotDBHistogram.stmtsFor st col resIqr resRowCount resMin resMax)[j]? =
          some stmtJ →
        ¬(stmtI.condOf.eval x = true ∧ stmtJ.condOf.eval x = true)) := by
  have hcl := stmtsFor_closed st col resIqr resRowCount resMin resMax
  rw [hplan] at hcl
  have hF : ((PinotDBHistogram.scaledColFor col).factor : ℚ) =
      (PinotDBHistogram.SCALE_FACTOR : ℚ) := rfl
  have hFpos : (0 : ℚ) ≤ (PinotDBHistogram.SCALE_FACTOR : ℚ) := by
    norm_num [PinotDBHistogram.SCALE_FACTOR]
  have hmono : ∀ i j : ℕ, i ≤ j →
      pyRound (binStart resMin w i * (PinotDBHistogram.SCALE_FACTOR : ℚ)) ≤
        pyRound (binStart resMin w j * (PinotDBHistogram.SCALE_FACTOR : ℚ)) := by
    intro i j hij
    apply pyRound_mono
    have hijq : (i : ℚ) ≤ (j : ℚ) := by exact_mod_cast hij
    have h1 : (i : ℚ) * w ≤ (j : ℚ) * w := mul_le_mul_of_nonneg_right hijq hw
    have h2 : binStart resMin w i ≤ binStart resMin w j := by
      unfold binStart
      linarith
    exact mul_le_mul_of_nonneg_right h2 hFpos
  have hsome : ∀ i, i < n →
      (PinotDBHistogram.stmtsFor st col resIqr resRowCount resMin resMax)[i]? =
        some (stmtAt (PinotDBHistogram.scaledColFor col) w resMin n i) := by
    intro i hi
    rw [hcl, List.getElem?_map, List.getElem?_range hi, Option.map_some']
  have hnone : ∀ i, n ≤ i →
      (PinotDBHistogram.stmtsFor st col resIqr resRowCount resMin resMax)[i]? = none := by
    intro i hi
    rw [hcl]
    apply List.getElem?_eq_none
    simpa using hi
  have hPiff : ∀ (x : ℚ) (i : ℕ),
      (∃ stmt,
        (PinotDBHistogram.stmtsFor st col resIqr resRowCount resMin resMax)[i]? =
          some stmt ∧ stmt.condOf.eval x = true) ↔
      (i < n ∧
        (((pyRound (binStart resMin w i * (PinotDBHistogram.SCALE_FACTOR : ℚ)) : ℤ) : ℚ) ≤
            x * (PinotDBHistogram.SCALE_FACTOR : ℚ) ∧
          (i + 1 < n →
            x * (PinotDBHistogram.SCALE_FACTOR : ℚ) <
              ((pyRound (binStart resMin w (i + 1) *
                (PinotDBHistogram.SCALE_FACTOR : ℚ)) : ℤ) : ℚ)))) := by
    intro x i
    constructor
    · rintro ⟨stmt, hstmt, heval⟩
      by_cases hi : i < n
      · rw [hsome i hi, Option.some.injEq] at hstmt
        subst hstmt
        refine ⟨hi, ?_⟩
        by_cases hib : i + 1 < n
        · have hb := (stmtAt_eval_bounded (PinotDBHistogram.scaledColFor col)
            w resMin n i hib x).1 heval
          rw [hF] at hb
          exact ⟨hb.1, fun _ => hb.2⟩
        · have hb := (stmtAt_eval_open (PinotDBHistogram.scaledColFor col)
            w resMin n i hib x).1 heval
          rw [hF] at hb
          exact ⟨hb, fun hcon => absurd hcon hib⟩
      · rw [hnone i (by omega)] at hstmt
        exact Option.noConfusion hstmt
    · rintro ⟨hi, h1, h2⟩
      refine ⟨stmtAt (PinotDBHistogram.scaledColFor col) w resMin n i, hsome i hi, ?_⟩
      by_cases hib : i + 1 < n
      · refine (stmtAt_eval_bounded (PinotDBHistogram.scaledColFor col)
          w resMin n i hib x).2 ?_
        rw [hF]
        exact ⟨h1, h2 hib⟩
      · refine (stmtAt_eval_open (PinotDBHistogram.scaledColFor col)
          w resMin n i hib x).2 ?_
        rw [hF]
        exact h1
  refine ⟨?_, ?_, ?_⟩
  · intro i hib
    constructor
    · rw [hsome i (by omega)]
      have hedge : stmtAt (PinotDBHistogram.scaledColFor col) w resMin n i =
          PinotDBHistogram.boundedStmt (PinotDBHistogram.scaledColFor col)
            (binStart resMin w i) (binStart resMin w (i + 1)) := by
        simp [stmtAt, hib]
      rw [hedge]
      unfold PinotDBHistogram.boundedStmt
      simp [AggExpr.upperScaled, hF]
    · rw [hsome (i + 1) (by omega)]
      by_cases hib2 : i + 1 + 1 < n
      · have hedge : stmtAt (PinotDBHistogram.scaledColFor col) w resMin n (i + 1) =
            PinotDBHistogram.boundedStmt (PinotDBHistogram.scaledColFor col)
              (binStart resMin w (i + 1)) (binStart resMin w (i + 1 + 1)) := by
          simp [stmtAt, hib2]
        rw [hedge]
        unfold PinotDBHistogram.boundedStmt
        simp [AggExpr.lowerScaled, hF]
      · have hedge : stmtAt (PinotDBHistogram.scaledColFor col) w resMin n (i + 1) =
            PinotDBHistogram.openStmt (PinotDBHistogram.scaledColFor col)
              (binStart resMin w (i + 1)) := by
          simp [stmtAt, hib2]
        rw [hedge]
        unfold PinotDBHistogram.openStmt
        simp [AggExpr.lowerScaled, hF]
  · intro x hx
    obtain ⟨i0, hi0, huniq⟩ := window_partition n (by omega)
      (fun i => pyRound (binStart resMin w i * (PinotDBHistogram.SCALE_FACTOR : ℚ)))
      (fun i j hij _ => hmono i j hij)
      (x * (PinotDBHistogram.SCALE_FACTOR : ℚ)) hx
    exact ⟨i0, (hPiff x i0).2 hi0, fun j hj => huniq j ((hPiff x j).1 hj)⟩
  · intro x i j hij stmtI stmtJ hsi hsj
    rintro ⟨hei, hej⟩
    have hjn : j < n := by
      by_contra hc
      rw [hnone j (by omega)] at hsj
      exact Option.noConfusion hsj
    have hi' := (hPiff x i).1 ⟨stmtI, hsi, hei⟩
    have hj' := (hPiff x j).1 ⟨stmtJ, hsj, hej⟩
    have h0 : ((pyRound (binStart resMin w 0 *
        (PinotDBHistogram.SCALE_FACTOR : ℚ)) : ℤ) : ℚ) ≤
        x * (PinotDBHistogram.SCALE_FACTOR : ℚ) := by
      have hm := hmono 0 i (by omega)
      have hcast : ((pyRound (binStart resMin w 0 *
          (PinotDBHistogram.SCALE_FACTOR : ℚ)) : ℤ) : ℚ) ≤
          ((pyRound (binStart resMin w i *
            (PinotDBHistogram.SCALE_FACTOR : ℚ)) : ℤ) : ℚ) := by
        exact_mod_cast hm
      exact le_trans hcast hi'.2.1
    obtain ⟨i0, _, huniq⟩ := window_partition n (by omega)
      (fun a => pyRound (binStart resMin w a * (PinotDBHistogram.SCALE_FACTOR : ℚ)))
      (fun a b hab _ => hmono a b hab)
      (x * (PinotDBHistogram.SCALE_FACTOR : ℚ)) h0
    have hieq := huniq i hi'
    have hjeq := huniq j hj'
    omega

/-- Witness for C10: in the 3-bin plan (width 7, min 0), bin 0's scaled upper bound
and bin 1's scaled lower bound are both 7000, and the scaled value of `x = 9`
(9000) satisfies exactly one bin condition. -/
theorem scaled_bounds_partition_witness :
    ((PinotDBHistogram.stmtsFor ⟨fun _ _ _ _ => (3, 7)⟩ ⟨"age", true, false⟩
        25 100 0 100)[0]?.bind AggExpr.upperScaled = some 7000 ∧
      (PinotDBHistogram.stmtsFor ⟨fun _ _ _ _ => (3, 7)⟩ ⟨"age", true, false⟩
        25 100 0 100)[1]?.bind AggExpr.lowerScaled = some 7000) ∧
    (∃! i : ℕ, ∃ stmt,
      (PinotDBHistogram.stmtsFor ⟨fun _ _ _ _ => (3, 7)⟩ ⟨"age", true, false⟩
        25 100 0 100)[i]? = some stmt ∧ stmt.condOf.eval 9 = true) := by
  have h := scaled_bounds_partition ⟨fun _ _ _ _ => (3, 7)⟩ ⟨"age", true, false⟩
    25 100 0 100 3 7 rfl (by omega) (by decide)
  constructor
  · have h1 := h.1 0 (by omega)
    constructor
    · rw [h1.1]
      decide
    · rw [h1.2]
      decide
  · refine h.2.1 9 ?_
    decide
